import Mathlib

/-!
Verification of the configuration-resolution slice of the datadog-ci
repository. The definitions below are a shallow embedding of
src/helpers/utils.ts and of the deep-extend merge engine it uses;
where the synthetics command sources are not part of the repository
snapshot, definitions are modelled from the specification and say so
in their doc comment.
-/

/-- A JavaScript value as manipulated by the configuration helpers.
vUndefined models the JavaScript undefined, vObj a plain object as an
ordered list of key-value fields. Numbers are modelled as rationals,
which is exact for the decimal literals involved; floating-point
rounding is outside the model. -/
inductive JVal where
  | vUndefined : JVal
  | vNull : JVal
  | vBool (b : Bool) : JVal
  | vNum (q : Rat) : JVal
  | vStr (s : String) : JVal
  | vArr (elems : List JVal) : JVal
  | vObj (fields : List (String × JVal)) : JVal

/-- The fields of a JavaScript object, in property order. -/
abbrev Fields := List (String × JVal)

/-- Property lookup on an object: the value stored at key k, if the key
is present (a key explicitly holding undefined is present). -/
def fieldOf : Fields → String → Option JVal
  | [], _ => none
  | (k0, v0) :: rest, k => if k0 = k then some v0 else fieldOf rest k

/-- Property read in the JavaScript sense: an absent key reads as
undefined. -/
def getField (f : Fields) (k : String) : JVal :=
  (fieldOf f k).getD .vUndefined

/-- Property write in the JavaScript sense: an existing key is updated
in place, a new key is appended. -/
def setKey : Fields → String → JVal → Fields
  | [], k, v => [(k, v)]
  | (k0, v0) :: rest, k, v =>
    if k0 = k then (k0, v) :: rest else (k0, v0) :: setKey rest k v

/-- JavaScript truthiness of a value, as tested by the double negation
in pick (src/helpers/utils.ts): undefined, null, false, 0 and the empty
string are falsy; arrays and objects are truthy. -/
def truthy : JVal → Bool
  | .vUndefined => false
  | .vNull => false
  | .vBool b => b
  | .vNum q => if q = 0 then false else true
  | .vStr s => !s.isEmpty
  | .vArr _ => true
  | .vObj _ => true

/-- Embedding of pick from src/helpers/utils.ts: keeps, among the
requested keys, exactly those whose value in the base object is truthy,
copying the value. -/
def pick (base : Fields) (keys : List String) : Fields :=
  let definedKeys := keys.filter (fun k => truthy (getField base k))
  definedKeys.foldl (fun acc k => setKey acc k (getField base k)) []

/-- Whether a value is the JavaScript undefined. -/
def isUndefined : JVal → Bool
  | .vUndefined => true
  | _ => false

/-- Embedding of removeUndefinedValues from src/helpers/utils.ts: a
shallow copy of the object with every key whose value is undefined
deleted. -/
def removeUndefinedValues (f : Fields) : Fields :=
  f.filter (fun p => !isUndefined p.2)

mutual
/-- One key of a deep-extend merge (the deep-extend npm package used by
src/helpers/utils.ts): a source value that is not a plain object
(primitives, undefined, null, arrays) replaces the target value; a
plain-object source value is merged field-by-field into a plain-object
target value, and copied into a fresh empty object when the target
value is not a plain object. -/
def mergeKey (src val : JVal) : JVal :=
  match val with
  | .vObj sf =>
    match src with
    | .vObj tf => .vObj (extendFields tf sf)
    | _ => .vObj (extendFields [] sf)
  | v => v
termination_by sizeOf val

/-- deep-extend over the fields of the source object, processed in
property order: each source key is written into the target with
mergeKey applied to the previous target value. -/
def extendFields (t : Fields) : Fields → Fields
  | [] => t
  | (k, v) :: rest => extendFields (setKey t k (mergeKey (getField t k) v)) rest
termination_by s => sizeOf s
end

/-- Top level of deep-extend as called in src/helpers/utils.ts: a
source argument that is not a plain object is skipped and the target is
returned unchanged. -/
def deepExtend (t s : JVal) : JVal :=
  match s with
  | .vObj sf =>
    match t with
    | .vObj tf => .vObj (extendFields tf sf)
    | _ => t
  | _ => t

/-- The slice of the Node file-system interface used by the helpers:
existsSync, and a one-shot readFile yielding either the file content or
an error code. The two may disagree on the same path, modelling a file
that vanishes between the existence check and the read. -/
structure FileSystem where
  existsSync : String → Bool
  readFile : String → Except String String

/-- The errors thrown by the config-file helpers in
src/helpers/utils.ts: configFileNotFound models the thrown
Error(Config file not found), configNotCorrectJson the thrown
Error(Config file is not correct JSON). -/
inductive JsError where
  | configFileNotFound : JsError
  | configNotCorrectJson : JsError
deriving DecidableEq

/-- Embedding of getConfig from src/helpers/utils.ts: reads and
JSON-parses a config file. The jsonParse argument stands for the
JSON.parse builtin, with none modelling a SyntaxError. A parse failure
is rethrown as the config error; any other read failure is swallowed by
the catch block and the function returns undefined, modelled as
ok none. -/
def getConfig (fs : FileSystem) (jsonParse : String → Option JVal)
    (configPath : String) : Except JsError (Option JVal) :=
  match fs.readFile configPath with
  | .ok configFile =>
    match jsonParse configFile with
    | some v => .ok (some v)
    | none => .error .configNotCorrectJson
  | .error _ => .ok none

/-- JavaScript truthiness of an optional string, as tested by the if on
configPath in src/helpers/utils.ts: absent and empty are falsy. -/
def truthyOptStr : Option String → Bool
  | none => false
  | some s => !s.isEmpty

/-- The loop over defaultConfigPaths in resolveConfigPath: the first
default path that exists, if any. -/
def findExistingDefaultPath (fs : FileSystem) : Option (List String) → Option String
  | some paths => paths.find? (fun p => fs.existsSync p)
  | none => none

/-- Embedding of resolveConfigPath from src/helpers/utils.ts: a truthy
explicit path must exist or the function throws; otherwise the first
existing default path is used, and none at all is not an error. -/
def resolveConfigPath (fs : FileSystem) (configPath : Option String)
    (defaultConfigPaths : Option (List String)) : Except JsError (Option String) :=
  if truthyOptStr configPath then
    match configPath with
    | some p => if fs.existsSync p then .ok (some p) else .error .configFileNotFound
    | none => .ok none
  else
    .ok (findExistingDefaultPath fs defaultConfigPaths)

/-- Embedding of resolveConfigFromFile from src/helpers/utils.ts: when
no config path resolves, the base config is returned unchanged;
otherwise the parsed file is deep-extended onto the base config (when
getConfig swallowed a read error and returned undefined, deep-extend
skips the non-object source and the base config is returned). -/
def resolveConfigFromFile (fs : FileSystem) (jsonParse : String → Option JVal)
    (baseConfig : JVal) (configPath : Option String)
    (defaultConfigPaths : Option (List String)) : Except JsError JVal := do
  let resolvedConfigPath ← resolveConfigPath fs configPath defaultConfigPaths
  match resolvedConfigPath with
  | none => return baseConfig
  | some rp =>
    let parsedConfig ← getConfig fs jsonParse rp
    return deepExtend baseConfig (parsedConfig.getD .vUndefined)

/-- Embedding of resolveConfigFromFileAndEnvironment from
src/helpers/utils.ts: the file layer is resolved first, then the
environment object, stripped of its undefined entries, is deep-extended
onto it. The configFromFileCallback parameter of the source, a pure
side effect on the intermediate value, is omitted. -/
def resolveConfigFromFileAndEnvironment (fs : FileSystem)
    (jsonParse : String → Option JVal) (baseConfig : JVal) (environment : Fields)
    (configPath : Option String) (defaultConfigPaths : Option (List String)) :
    Except JsError JVal := do
  let configFromFile ← resolveConfigFromFile fs jsonParse baseConfig configPath
    defaultConfigPaths
  return deepExtend configFromFile (.vObj (removeUndefinedValues environment))

/-- The numeric value of a decimal digit character. -/
def digitVal (c : Char) : Nat := c.toNat - Char.toNat '0'

/-- The natural number denoted by a list of decimal digits. -/
def digitsToNat (l : List Char) : Nat :=
  l.foldl (fun a c => 10 * a + digitVal c) 0

/-- Model of the JavaScript parseFloat builtin on the decimal literals
relevant to parseOptionalInteger: optional leading whitespace and sign,
then the longest prefix of the shapes digits, digits.digits or .digits;
none models NaN (no parsable prefix). Exponents, Infinity and
floating-point rounding are outside the model. -/
def jsParseFloat (s : String) : Option Rat :=
  let cs := s.data.dropWhile (fun c => c = ' ' || c = '\t' || c = '\n')
  let signed : Rat × List Char :=
    match cs with
    | '-' :: r => (-1, r)
    | '+' :: r => (1, r)
    | _ => (1, cs)
  let intPart := signed.2.takeWhile Char.isDigit
  let rest := signed.2.dropWhile Char.isDigit
  let fracPart :=
    match rest with
    | '.' :: r => r.takeWhile Char.isDigit
    | _ => []
  if intPart.isEmpty && fracPart.isEmpty then none
  else
    some (signed.1 *
      ((digitsToNat intPart : Rat) + (digitsToNat fracPart : Rat) / (10 : Rat) ^ fracPart.length))

/-- The Number.isInteger builtin, on the model where none is NaN. -/
def numberIsInteger : Option Rat → Bool
  | none => false
  | some q => q.den == 1

/-- The error thrown by parseOptionalInteger in src/helpers/utils.ts,
an Error whose message says the value is not an integer; the
specification calls this class of failures a ParseError. -/
inductive ParseError where
  | notAnInteger : ParseError
deriving DecidableEq

/-- Embedding of parseOptionalInteger from src/helpers/utils.ts: a
falsy input (absent or empty string) yields undefined; otherwise the
input goes through parseFloat and any non-integer outcome, NaN
included, throws. -/
def parseOptionalInteger (value : Option String) : Except ParseError (Option Rat) :=
  if !truthyOptStr value then .ok none
  else
    let number := jsParseFloat (value.getD "")
    if numberIsInteger number then .ok number
    else .error .notAnInteger

/-- Modelled from the spec: the fixed default constant for the batch
and polling timeouts (DEFAULT_POLLING_TIMEOUT of run-tests-command.ts,
which is not under src/), thirty minutes in milliseconds. -/
def DEFAULT_POLLING_TIMEOUT : Rat := 30 * 60 * 1000

/-- Whether a configuration layer explicitly sets a field: the key is
present and its value is not undefined. -/
def isSetAt (f : Fields) (k : String) : Bool :=
  match fieldOf f k with
  | some .vUndefined => false
  | some _ => true
  | none => false

/-- The value a layer sets at a key, with an explicit undefined
counting as unset. -/
def setValAt (f : Fields) (k : String) : Option JVal :=
  match fieldOf f k with
  | some .vUndefined => none
  | some v => some v
  | none => none

/-- Modelled from the spec: the timeout one source explicitly sets
(run-tests-command.ts is not under src/). Within a single source the
new name batchTimeout takes precedence over the deprecated
pollingTimeout, per the cli.test.ts comment that batchTimeout wins when
both are used. -/
def layerTimeout (l : Fields) : Option JVal :=
  (setValAt l "batchTimeout").orElse (fun _ => setValAt l "pollingTimeout")

/-- Modelled from the spec (section 4.2 step 5): the deprecated-field
reconciliation of run-tests-command.ts, which is not under src/. The
timeout of the highest-precedence source that set either field, or the
fixed default when none did, is written into both batchTimeout and
pollingTimeout of the merged configuration. -/
def reconcileTimeouts (merged : Fields) (fileC envC cliC : Fields) : Fields :=
  let t := ((layerTimeout cliC).orElse (fun _ =>
      (layerTimeout envC).orElse (fun _ => layerTimeout fileC))).getD
    (.vNum DEFAULT_POLLING_TIMEOUT)
  setKey (setKey merged "batchTimeout" t) "pollingTimeout" t

/-- Modelled from the spec (section 4.2): the resolveConfig pipeline of
the synthetics run-tests command (run-tests-command.ts, not under
src/), over already-materialised layers: deep-merge the file layer onto
the defaults, then the environment and CLI layers each stripped of
undefined entries, then reconcile the deprecated timeout pair. -/
def runTestsResolveConfig (base fileC envC cliC : Fields) : Fields :=
  let afterFile := extendFields base fileC
  let afterEnv := extendFields afterFile (removeUndefinedValues envC)
  let afterCli := extendFields afterEnv (removeUndefinedValues cliC)
  reconcileTimeouts afterCli fileC envC cliC

/-- Modelled from the spec (section 4.2 step 4): the CLI layer of the
run-tests command (run-tests-command.ts, not under src/) is
deep-merged, stripped of undefined entries, onto the result of
resolveConfigFromFileAndEnvironment, whose embedding above follows
src/helpers/utils.ts. -/
def resolveConfigWithCli (fs : FileSystem) (jsonParse : String → Option JVal)
    (baseConfig : JVal) (environment cliConfig : Fields) (configPath : Option String)
    (defaultConfigPaths : Option (List String)) : Except JsError JVal :=
  (resolveConfigFromFileAndEnvironment fs jsonParse baseConfig environment configPath
      defaultConfigPaths).map
    (fun r => deepExtend r (.vObj (removeUndefinedValues cliConfig)))

/-- Modelled from the spec (section 4.3): resolveTestOverrides, the
per-test override resolution of the synthetics command (not under
src/): the test file override block is deep-merged onto the global
Override Set with the same sub-field-level semantics as the command
merge, with no deprecated-field reconciliation and no side effects. -/
def resolveTestOverrides (globalOverrides testOverrides : Fields) : Fields :=
  extendFields globalOverrides testOverrides

/-- The strictness flags of the run-tests command configuration. -/
structure RunStrictness where
  failOnCriticalErrors : Bool
  failOnMissingTests : Bool
  failOnTimeout : Bool

/-- The per-run tallies of classified outcomes used by the exit-code
policy. -/
structure RunTally where
  criticalErrors : Nat
  missingTests : Nat
  timedOutResults : Nat

/-- Modelled from the spec (section 4.4): the outcome of looking one
test up on the remote API (the synthetics command sources are not under
src/): either the test was found, or the lookup failed with an HTTP
status, none standing for a non-HTTP unknown error. -/
inductive TestLookup where
  | found : TestLookup
  | failed (httpStatus : Option Nat) : TestLookup

/-- Modelled from the spec (sections 4.4 and 7): a lookup failure with
a remote 404 is classified as not found. -/
def isNotFoundFailure : TestLookup → Bool
  | .failed (some 404) => true
  | _ => false

/-- Modelled from the spec (sections 4.4 and 7): any lookup failure
other than a remote 404, unknown errors included, is classified as
critical. -/
def isCriticalFailure : TestLookup → Bool
  | .failed (some s) => !(s == 404)
  | .failed none => true
  | .found => false

/-- Modelled from the spec (section 4.4): the tallies of one run, from
the classified per-test lookups and the timed-out flags of the polled
results. -/
def runTally (lookups : List TestLookup) (resultTimedOut : List Bool) : RunTally :=
  { criticalErrors := lookups.countP (fun l => isCriticalFailure l)
  , missingTests := lookups.countP (fun l => isNotFoundFailure l)
  , timedOutResults := resultTimedOut.countP (fun b => b) }

/-- The successful process exit code. -/
def EXIT_OK : Nat := 0

/-- The failing process exit code. -/
def EXIT_FAILURE : Nat := 1

/-- Modelled from the spec (section 4.4): the final exit-code policy of
the run-tests command (not under src/): failure exactly when a
strictness flag is enabled and its tally is non-zero. -/
def getExitCode (flags : RunStrictness) (tally : RunTally) : Nat :=
  if (flags.failOnCriticalErrors && tally.criticalErrors > 0)
      || (flags.failOnMissingTests && tally.missingTests > 0)
      || (flags.failOnTimeout && tally.timedOutResults > 0) then
    EXIT_FAILURE
  else
    EXIT_OK

/-- Whether the value a layer holds at a key is flat, that is, not a
plain object (absence counts as flat). -/
def flatAt (f : Fields) (k : String) : Bool :=
  match fieldOf f k with
  | some (.vObj _) => false
  | _ => true

theorem fieldOf_setKey_self (t : Fields) (k : String) (v : JVal) :
    fieldOf (setKey t k v) k = some v := by
  induction t with
  | nil => simp [setKey, fieldOf]
  | cons p rest ih =>
    obtain ⟨k0, v0⟩ := p
    by_cases h : k0 = k
    · simp [setKey, fieldOf, h]
    · simp [setKey, fieldOf, h, ih]

theorem fieldOf_setKey_ne (t : Fields) (k k2 : String) (v : JVal) (h : k2 ≠ k) :
    fieldOf (setKey t k2 v) k = fieldOf t k := by
  induction t with
  | nil => simp [setKey, fieldOf, h]
  | cons p rest ih =>
    obtain ⟨k0, v0⟩ := p
    by_cases h0 : k0 = k2
    · subst h0
      simp [setKey, fieldOf, h]
    · simp [setKey, fieldOf, h0, ih]

theorem getField_setKey_ne (t : Fields) (k k2 : String) (v : JVal) (h : k2 ≠ k) :
    getField (setKey t k2 v) k = getField t k := by
  simp [getField, fieldOf_setKey_ne t k k2 v h]

theorem fieldOf_eq_none_of_not_mem (t : Fields) (k : String)
    (h : k ∉ t.map Prod.fst) : fieldOf t k = none := by
  induction t with
  | nil => simp [fieldOf]
  | cons p rest ih =>
    obtain ⟨k0, v0⟩ := p
    simp only [List.map_cons, List.mem_cons] at h
    push_neg at h
    have hne : k0 ≠ k := fun hh => h.1 hh.symm
    simp [fieldOf, hne, ih h.2]

theorem fieldOf_extendFields_of_none (s t : Fields) (k : String)
    (hs : fieldOf s k = none) :
    fieldOf (extendFields t s) k = fieldOf t k := by
  induction s generalizing t with
  | nil => simp [extendFields]
  | cons p rest ih =>
    obtain ⟨k0, v0⟩ := p
    simp only [fieldOf] at hs
    by_cases h : k0 = k
    · simp [h] at hs
    · rw [if_neg h] at hs
      simp only [extendFields]
      rw [ih _ hs, fieldOf_setKey_ne _ _ _ _ h]

theorem fieldOf_extendFields_of_some (s t : Fields) (k : String) (v : JVal)
    (hnd : (s.map Prod.fst).Nodup) (hs : fieldOf s k = some v) :
    fieldOf (extendFields t s) k = some (mergeKey (getField t k) v) := by
  induction s generalizing t with
  | nil => simp [fieldOf] at hs
  | cons p rest ih =>
    obtain ⟨k0, v0⟩ := p
    simp only [List.map_cons, List.nodup_cons] at hnd
    simp only [fieldOf] at hs
    by_cases h : k0 = k
    · subst h
      rw [if_pos rfl] at hs
      injection hs with hs
      subst hs
      simp only [extendFields]
      rw [fieldOf_extendFields_of_none rest _ k0
        (fieldOf_eq_none_of_not_mem _ _ hnd.1)]
      exact fieldOf_setKey_self _ _ _
    · rw [if_neg h] at hs
      simp only [extendFields]
      rw [ih _ hnd.2 hs, getField_setKey_ne _ _ _ _ h]

theorem mergeKey_of_not_obj (src v : JVal) (h : ∀ f : Fields, v ≠ JVal.vObj f) :
    mergeKey src v = v := by
  cases v with
  | vObj f => exact absurd rfl (h f)
  | vUndefined => simp [mergeKey]
  | vNull => simp [mergeKey]
  | vBool b => simp [mergeKey]
  | vNum q => simp [mergeKey]
  | vStr s => simp [mergeKey]
  | vArr a => simp [mergeKey]

theorem not_obj_of_flatAt (e : Fields) (k : String) (v : JVal)
    (hflat : flatAt e k = true) (h : fieldOf e k = some v) :
    ∀ f : Fields, v ≠ JVal.vObj f := by
  intro f hv
  subst hv
  rw [flatAt, h] at hflat
  simp at hflat

theorem removeUndefinedValues_cons (k0 : String) (v0 : JVal) (rest : Fields) :
    removeUndefinedValues ((k0, v0) :: rest) =
      if isUndefined v0 = true then removeUndefinedValues rest
      else (k0, v0) :: removeUndefinedValues rest := by
  by_cases h : isUndefined v0 = true <;> simp [removeUndefinedValues, List.filter_cons, h]

theorem fieldOf_removeUndefinedValues_of_none (e : Fields) (k : String)
    (h : fieldOf e k = none) : fieldOf (removeUndefinedValues e) k = none := by
  induction e with
  | nil => simp [removeUndefinedValues, fieldOf]
  | cons p rest ih =>
    obtain ⟨k0, v0⟩ := p
    simp only [fieldOf] at h
    by_cases hk : k0 = k
    · simp [hk] at h
    · rw [if_neg hk] at h
      rw [removeUndefinedValues_cons]
      by_cases hu : isUndefined v0 = true
      · rw [if_pos hu]
        exact ih h
      · rw [if_neg hu]
        simp [fieldOf, hk, ih h]

theorem fieldOf_removeUndefinedValues_of_some (e : Fields) (k : String) (v : JVal)
    (hv : isUndefined v = false) (h : fieldOf e k = some v) :
    fieldOf (removeUndefinedValues e) k = some v := by
  induction e with
  | nil => simp [fieldOf] at h
  | cons p rest ih =>
    obtain ⟨k0, v0⟩ := p
    simp only [fieldOf] at h
    by_cases hk : k0 = k
    · rw [if_pos hk] at h
      injection h with h
      subst h
      rw [removeUndefinedValues_cons, if_neg (by simp [hv]), fieldOf, if_pos hk]
    · rw [if_neg hk] at h
      rw [removeUndefinedValues_cons]
      by_cases hu : isUndefined v0 = true
      · rw [if_pos hu]
        exact ih h
      · rw [if_neg hu]
        simp [fieldOf, hk, ih h]

theorem fieldOf_removeUndefinedValues_of_undefined (e : Fields) (k : String)
    (hnd : (e.map Prod.fst).Nodup) (h : fieldOf e k = some JVal.vUndefined) :
    fieldOf (removeUndefinedValues e) k = none := by
  induction e with
  | nil => simp [fieldOf] at h
  | cons p rest ih =>
    obtain ⟨k0, v0⟩ := p
    simp only [List.map_cons, List.nodup_cons] at hnd
    simp only [fieldOf] at h
    by_cases hk : k0 = k
    · rw [if_pos hk] at h
      injection h with h
      subst h
      rw [removeUndefinedValues_cons,
        if_pos (show isUndefined JVal.vUndefined = true from rfl)]
      subst hk
      exact fieldOf_removeUndefinedValues_of_none _ _
        (fieldOf_eq_none_of_not_mem _ _ hnd.1)
    · rw [if_neg hk] at h
      rw [removeUndefinedValues_cons]
      by_cases hu : isUndefined v0 = true
      · rw [if_pos hu]
        exact ih hnd.2 h
      · rw [if_neg hu]
        simp [fieldOf, hk, ih hnd.2 h]

theorem nodup_removeUndefinedValues (e : Fields)
    (hnd : (e.map Prod.fst).Nodup) :
    ((removeUndefinedValues e).map Prod.fst).Nodup := by
  have hsub : List.Sublist (removeUndefinedValues e) e := List.filter_sublist e
  exact hnd.sublist (hsub.map Prod.fst)

theorem fieldOf_extend_stripped (t e : Fields) (k : String)
    (hnd : (e.map Prod.fst).Nodup) (hflat : flatAt e k = true) :
    fieldOf (extendFields t (removeUndefinedValues e)) k =
      if isSetAt e k = true then fieldOf e k else fieldOf t k := by
  cases he : fieldOf e k with
  | none =>
    rw [fieldOf_extendFields_of_none _ _ _
      (fieldOf_removeUndefinedValues_of_none _ _ he)]
    simp [isSetAt, he]
  | some v =>
    cases hv : isUndefined v with
    | true =>
      have hvu : v = JVal.vUndefined := by
        cases v <;> simp [isUndefined] at hv ⊢
      subst hvu
      rw [fieldOf_extendFields_of_none _ _ _
        (fieldOf_removeUndefinedValues_of_undefined _ _ hnd he)]
      simp [isSetAt, he]
    | false =>
      have hvn : ∀ f : Fields, v ≠ JVal.vObj f := not_obj_of_flatAt _ _ _ hflat he
      rw [fieldOf_extendFields_of_some _ _ _ v
        (nodup_removeUndefinedValues _ hnd)
        (fieldOf_removeUndefinedValues_of_some _ _ _ hv he),
        mergeKey_of_not_obj _ _ hvn]
      have hset : isSetAt e k = true := by
        rw [isSetAt, he]
        cases v <;> simp [isUndefined] at hv ⊢
      rw [if_pos hset]

theorem fieldOf_extend_layer (t e : Fields) (k : String)
    (hnd : (e.map Prod.fst).Nodup) (hflat : flatAt e k = true)
    (hU : fieldOf e k ≠ some JVal.vUndefined) :
    fieldOf (extendFields t e) k =
      if isSetAt e k = true then fieldOf e k else fieldOf t k := by
  cases he : fieldOf e k with
  | none =>
    rw [fieldOf_extendFields_of_none _ _ _ he]
    simp [isSetAt, he]
  | some v =>
    have hvu : v ≠ JVal.vUndefined := fun hh => hU (hh ▸ he)
    have hvn : ∀ f : Fields, v ≠ JVal.vObj f := not_obj_of_flatAt _ _ _ hflat he
    rw [fieldOf_extendFields_of_some _ _ _ v hnd he, mergeKey_of_not_obj _ _ hvn]
    have hset : isSetAt e k = true := by
      rw [isSetAt, he]
      cases v <;> simp at hvu ⊢
    rw [if_pos hset]

theorem resolveConfigWithCli_eq (fs : FileSystem) (jsonParse : String → Option JVal)
    (bf ff ef cf : Fields) (cp content : String) (dps : Option (List String))
    (hcp : cp.isEmpty = false) (hex : fs.existsSync cp = true)
    (hread : fs.readFile cp = Except.ok content)
    (hparse : jsonParse content = some (.vObj ff)) :
    resolveConfigWithCli fs jsonParse (.vObj bf) ef cf (some cp) dps =
      .ok (.vObj (extendFields (extendFields (extendFields bf ff)
        (removeUndefinedValues ef)) (removeUndefinedValues cf))) := by
  have h1 : resolveConfigPath fs (some cp) dps = .ok (some cp) := by
    simp [resolveConfigPath, truthyOptStr, hcp, hex]
  have h2 : getConfig fs jsonParse cp = .ok (some (.vObj ff)) := by
    simp [getConfig, hread, hparse]
  simp [resolveConfigWithCli, resolveConfigFromFileAndEnvironment, resolveConfigFromFile,
    h1, h2, deepExtend, Except.map, bind, Except.bind, pure, Except.pure]

/-- C1: for every base config, file config (delivered through the file
system and JSON parser), environment snapshot and CLI layer, a field
whose values at the file, environment and CLI layers are flat, the
resolved configuration holds the CLI value if the CLI set it, else the
environment value if the environment set it, else the file value if
the file set it, else the hard-coded default from the base config; an
environment or CLI entry explicitly holding undefined is stripped
before merging and never clobbers a lower layer. -/
theorem claim_c1 (fs : FileSystem) (jsonParse : String → Option JVal)
    (bf ff ef cf : Fields) (cp content : String) (dps : Option (List String))
    (k : String)
    (hcp : cp.isEmpty = false) (hex : fs.existsSync cp = true)
    (hread : fs.readFile cp = Except.ok content)
    (hparse : jsonParse content = some (.vObj ff))
    (hndf : (ff.map Prod.fst).Nodup) (hnde : (ef.map Prod.fst).Nodup)
    (hndc : (cf.map Prod.fst).Nodup)
    (hflatf : flatAt ff k = true) (hflate : flatAt ef k = true)
    (hflatc : flatAt cf k = true)
    (hfU : fieldOf ff k ≠ some JVal.vUndefined) :
    ∃ r : Fields,
      resolveConfigWithCli fs jsonParse (.vObj bf) ef cf (some cp) dps =
        .ok (.vObj r) ∧
      fieldOf r k =
        (if isSetAt cf k = true then fieldOf cf k
         else if isSetAt ef k = true then fieldOf ef k
         else if isSetAt ff k = true then fieldOf ff k
         else fieldOf bf k) := by
  refine ⟨_, resolveConfigWithCli_eq fs jsonParse bf ff ef cf cp content dps
    hcp hex hread hparse, ?_⟩
  rw [fieldOf_extend_stripped _ _ _ hndc hflatc]
  by_cases h1 : isSetAt cf k = true
  · rw [if_pos h1, if_pos h1]
  · rw [if_neg h1, if_neg h1, fieldOf_extend_stripped _ _ _ hnde hflate]
    by_cases h2 : isSetAt ef k = true
    · rw [if_pos h2, if_pos h2]
    · rw [if_neg h2, if_neg h2, fieldOf_extend_layer _ _ _ hndf hflatf hfU]

/-- Witness for C1: a concrete run where the CLI layer is empty, the
environment explicitly holds undefined at the key, and the file layer
therefore wins with its value 2. -/
theorem claim_c1_witness :
    ∃ r : Fields,
      resolveConfigWithCli
        ⟨fun p => p == "dd.json",
         fun p => if p == "dd.json" then .ok "FILE" else .error "ENOENT"⟩
        (fun s => if s == "FILE" then some (.vObj [("b", .vNum 2)]) else none)
        (.vObj [("a", .vStr "x")]) [("b", .vUndefined)] [] (some "dd.json") none =
        .ok (.vObj r) ∧
      fieldOf r "b" = some (JVal.vNum 2) := by
  obtain ⟨r, h1, h2⟩ := claim_c1
    ⟨fun p => p == "dd.json",
     fun p => if p == "dd.json" then .ok "FILE" else .error "ENOENT"⟩
    (fun s => if s == "FILE" then some (.vObj [("b", .vNum 2)]) else none)
    [("a", .vStr "x")] [("b", .vNum 2)] [("b", .vUndefined)] []
    "dd.json" "FILE" none "b"
    (by decide) (by decide) rfl rfl
    (by decide) (by decide) (by decide)
    (by decide) (by decide) (by decide)
    (by intro h; simp [fieldOf] at h)
  refine ⟨r, h1, ?_⟩
  rw [h2]
  simp [isSetAt, fieldOf]

/-- C2: after the run-tests command resolves its configuration, the
pollingTimeout and batchTimeout fields hold the same value, and that
common value is the timeout explicitly set at the highest-precedence
source that set either field, defaulting to the fixed constant when no
source set one. -/
theorem claim_c2 (base fileC envC cliC : Fields) :
    (fieldOf (runTestsResolveConfig base fileC envC cliC) "pollingTimeout" =
      fieldOf (runTestsResolveConfig base fileC envC cliC) "batchTimeout") ∧
    (∀ v, layerTimeout cliC = some v →
      fieldOf (runTestsResolveConfig base fileC envC cliC) "batchTimeout" = some v) ∧
    (∀ v, layerTimeout cliC = none → layerTimeout envC = some v →
      fieldOf (runTestsResolveConfig base fileC envC cliC) "batchTimeout" = some v) ∧
    (∀ v, layerTimeout cliC = none → layerTimeout envC = none →
      layerTimeout fileC = some v →
      fieldOf (runTestsResolveConfig base fileC envC cliC) "batchTimeout" = some v) ∧
    (layerTimeout cliC = none → layerTimeout envC = none → layerTimeout fileC = none →
      fieldOf (runTestsResolveConfig base fileC envC cliC) "batchTimeout" =
        some (.vNum DEFAULT_POLLING_TIMEOUT)) := by
  have hne : ("pollingTimeout" : String) ≠ "batchTimeout" := by decide
  refine ⟨?_, ?_, ?_, ?_, ?_⟩
  · simp only [runTestsResolveConfig, reconcileTimeouts]
    rw [fieldOf_setKey_self, fieldOf_setKey_ne _ _ _ _ hne, fieldOf_setKey_self]
  · intro v hc
    simp only [runTestsResolveConfig, reconcileTimeouts]
    rw [fieldOf_setKey_ne _ _ _ _ hne, fieldOf_setKey_self]
    simp [hc, Option.orElse]
  · intro v hc he
    simp only [runTestsResolveConfig, reconcileTimeouts]
    rw [fieldOf_setKey_ne _ _ _ _ hne, fieldOf_setKey_self]
    simp [hc, he, Option.orElse]
  · intro v hc he hf
    simp only [runTestsResolveConfig, reconcileTimeouts]
    rw [fieldOf_setKey_ne _ _ _ _ hne, fieldOf_setKey_self]
    simp [hc, he, hf, Option.orElse]
  · intro hc he hf
    simp only [runTestsResolveConfig, reconcileTimeouts]
    rw [fieldOf_setKey_ne _ _ _ _ hne, fieldOf_setKey_self]
    simp [hc, he, hf, Option.orElse]

/-- Witness for C2: with the file layer setting pollingTimeout to 1 and
the CLI layer setting batchTimeout to 2, both resolved fields hold 2,
the CLI value. -/
theorem claim_c2_witness :
    fieldOf (runTestsResolveConfig [] [("pollingTimeout", .vNum 1)] []
      [("batchTimeout", .vNum 2)]) "pollingTimeout" =
      fieldOf (runTestsResolveConfig [] [("pollingTimeout", .vNum 1)] []
        [("batchTimeout", .vNum 2)]) "batchTimeout" ∧
    fieldOf (runTestsResolveConfig [] [("pollingTimeout", .vNum 1)] []
      [("batchTimeout", .vNum 2)]) "batchTimeout" = some (JVal.vNum 2) := by
  refine ⟨(claim_c2 [] [("pollingTimeout", .vNum 1)] [] [("batchTimeout", .vNum 2)]).1, ?_⟩
  exact (claim_c2 [] [("pollingTimeout", .vNum 1)] [] [("batchTimeout", .vNum 2)]).2.1
    (JVal.vNum 2) (by simp [layerTimeout, setValAt, fieldOf, Option.orElse])

/-- C3: merging a higher-precedence layer that sets only retry.count
onto a lower-precedence layer that sets only retry.interval yields a
retry object holding both sub-fields, count from the higher source and
interval preserved from the lower one: the retry sub-object merges at
the sub-field level, never as a wholesale replace. -/
theorem claim_c3 (t s rt rs : Fields) (vc vi : JVal)
    (hnds : (s.map Prod.fst).Nodup) (hndrs : (rs.map Prod.fst).Nodup)
    (ht : fieldOf t "retry" = some (.vObj rt))
    (hs : fieldOf s "retry" = some (.vObj rs))
    (htc : fieldOf rt "count" = none)
    (hti : fieldOf rt "interval" = some vi)
    (hsc : fieldOf rs "count" = some vc)
    (hsi : fieldOf rs "interval" = none)
    (hvc : ∀ f : Fields, vc ≠ JVal.vObj f) :
    ∃ rm : Fields, fieldOf (extendFields t s) "retry" = some (.vObj rm) ∧
      fieldOf rm "count" = some vc ∧ fieldOf rm "interval" = some vi := by
  have h1 := fieldOf_extendFields_of_some s t "retry" _ hnds hs
  have hg : getField t "retry" = JVal.vObj rt := by simp [getField, ht]
  rw [hg] at h1
  refine ⟨extendFields rt rs, ?_, ?_, ?_⟩
  · rw [h1]
    simp [mergeKey]
  · have h2 := fieldOf_extendFields_of_some rs rt "count" vc hndrs hsc
    rw [mergeKey_of_not_obj _ _ hvc] at h2
    exact h2
  · rw [fieldOf_extendFields_of_none rs rt "interval" hsi]
    exact hti

/-- Witness for C3: count 5 set only above, interval 42 set only below;
the merged retry object holds both. -/
theorem claim_c3_witness :
    ∃ rm : Fields,
      fieldOf (extendFields [("retry", .vObj [("interval", .vNum 42)])]
        [("retry", .vObj [("count", .vNum 5)])]) "retry" = some (.vObj rm) ∧
      fieldOf rm "count" = some (JVal.vNum 5) ∧
      fieldOf rm "interval" = some (JVal.vNum 42) := by
  exact claim_c3 [("retry", .vObj [("interval", .vNum 42)])]
    [("retry", .vObj [("count", .vNum 5)])]
    [("interval", .vNum 42)] [("count", .vNum 5)] (.vNum 5) (.vNum 42)
    (by decide) (by decide) (by simp [fieldOf]) (by simp [fieldOf])
    (by simp [fieldOf]) (by simp [fieldOf]) (by simp [fieldOf])
    (by simp [fieldOf]) (by intro f h; simp at h)

/-- C4: per-test resolution with an empty test-specific override block
is the identity: resolveTestOverrides returns the global Override Set
unchanged. -/
theorem claim_c4 (globalOverrides : Fields) :
    resolveTestOverrides globalOverrides [] = globalOverrides := by
  simp [resolveTestOverrides, extendFields]

/-- C5: the process exit code is EXIT_FAILURE exactly when a strictness
flag is enabled and the matching condition occurred: failOnCriticalErrors
with at least one critical error, failOnMissingTests with a positive
missingTests tally, or failOnTimeout with at least one timed-out polled
result; otherwise the exit code is EXIT_OK. -/
theorem claim_c5 (flags : RunStrictness) (lookups : List TestLookup)
    (timedOut : List Bool) :
    (getExitCode flags (runTally lookups timedOut) = EXIT_FAILURE ↔
      ((flags.failOnCriticalErrors = true ∧ ∃ l ∈ lookups, isCriticalFailure l = true) ∨
       (flags.failOnMissingTests = true ∧ 0 < (runTally lookups timedOut).missingTests) ∨
       (flags.failOnTimeout = true ∧ true ∈ timedOut))) ∧
    (getExitCode flags (runTally lookups timedOut) = EXIT_OK ↔
      ¬((flags.failOnCriticalErrors = true ∧ ∃ l ∈ lookups, isCriticalFailure l = true) ∨
        (flags.failOnMissingTests = true ∧ 0 < (runTally lookups timedOut).missingTests) ∨
        (flags.failOnTimeout = true ∧ true ∈ timedOut))) := by
  have htime : (0 < timedOut.countP (fun b => b)) ↔ true ∈ timedOut := by
    rw [List.countP_pos_iff]
    constructor
    · rintro ⟨b, hb, hbt⟩
      cases b
      · simp at hbt
      · exact hb
    · intro h
      exact ⟨true, h, rfl⟩
  have key : ∀ t : RunTally, (getExitCode flags t = EXIT_FAILURE ↔
      ((flags.failOnCriticalErrors && t.criticalErrors > 0)
        || (flags.failOnMissingTests && t.missingTests > 0)
        || (flags.failOnTimeout && t.timedOutResults > 0)) = true) ∧
      (getExitCode flags t = EXIT_OK ↔
        ¬(((flags.failOnCriticalErrors && t.criticalErrors > 0)
          || (flags.failOnMissingTests && t.missingTests > 0)
          || (flags.failOnTimeout && t.timedOutResults > 0)) = true)) := by
    intro t
    rw [getExitCode]
    split
    · next hcond => simp [hcond, EXIT_FAILURE, EXIT_OK]
    · next hcond => simp [hcond, EXIT_FAILURE, EXIT_OK]
  obtain ⟨h1, h2⟩ := key (runTally lookups timedOut)
  have hD : (((flags.failOnCriticalErrors &&
        (runTally lookups timedOut).criticalErrors > 0)
      || (flags.failOnMissingTests && (runTally lookups timedOut).missingTests > 0)
      || (flags.failOnTimeout && (runTally lookups timedOut).timedOutResults > 0)) = true) ↔
      ((flags.failOnCriticalErrors = true ∧ ∃ l ∈ lookups, isCriticalFailure l = true) ∨
       (flags.failOnMissingTests = true ∧ 0 < (runTally lookups timedOut).missingTests) ∨
       (flags.failOnTimeout = true ∧ true ∈ timedOut)) := by
    simp [Bool.or_eq_true, Bool.and_eq_true, decide_eq_true_eq, gt_iff_lt,
      runTally, List.countP_pos_iff, or_assoc]
  exact ⟨h1.trans hD, h2.trans (not_congr hD)⟩

/-- C6: a remote 404 during test lookup is classified as not found,
incrementing only the missingTests tally and never the critical tally;
and when every selected test is missing, so that no tests remain to run
and no result can time out, the run exits 0 whatever
failOnCriticalErrors and failOnTimeout are set to, as long as
failOnMissingTests is left at its default false. -/
theorem claim_c6 :
    (isNotFoundFailure (.failed (some 404)) = true ∧
     isCriticalFailure (.failed (some 404)) = false) ∧
    (∀ lookups : List TestLookup, ∀ timedOut : List Bool,
      (runTally (.failed (some 404) :: lookups) timedOut).missingTests =
        (runTally lookups timedOut).missingTests + 1 ∧
      (runTally (.failed (some 404) :: lookups) timedOut).criticalErrors =
        (runTally lookups timedOut).criticalErrors) ∧
    (∀ flags : RunStrictness, ∀ lookups : List TestLookup,
      (∀ l ∈ lookups, l = TestLookup.failed (some 404)) →
      flags.failOnMissingTests = false →
      getExitCode flags (runTally lookups []) = EXIT_OK) := by
  refine ⟨⟨rfl, rfl⟩, ?_, ?_⟩
  · intro lookups timedOut
    constructor
    · simp [runTally, List.countP_cons, isNotFoundFailure]
    · simp [runTally, List.countP_cons, isCriticalFailure]
  · intro flags lookups hall hfomt
    have hcrit : lookups.countP (fun l => isCriticalFailure l) = 0 := by
      rw [List.countP_eq_zero]
      intro l hl
      rw [hall l hl]
      simp [isCriticalFailure]
    simp [getExitCode, runTally, hcrit, hfomt, EXIT_OK]

/-- Witness for C6: two selected tests, both missing with a remote 404,
with failOnCriticalErrors and failOnTimeout enabled and
failOnMissingTests disabled: the run exits 0. -/
theorem claim_c6_witness :
    getExitCode ⟨true, false, true⟩
      (runTally [TestLookup.failed (some 404), TestLookup.failed (some 404)] []) =
      EXIT_OK := by
  refine claim_c6.2.2 ⟨true, false, true⟩ _ ?_ rfl
  intro l hl
  simp only [List.mem_cons, List.not_mem_nil, or_false] at hl
  rcases hl with h | h <;> exact h

theorem resolveConfigPath_error_iff (fs : FileSystem) (cp : Option String)
    (dps : Option (List String)) (e : JsError) :
    resolveConfigPath fs cp dps = .error e ↔
      (e = .configFileNotFound ∧ ∃ p, cp = some p ∧ p.isEmpty = false ∧
        fs.existsSync p = false) := by
  cases cp with
  | none => simp [resolveConfigPath, truthyOptStr]
  | some p =>
    cases hp : p.isEmpty with
    | true =>
      simp [resolveConfigPath, truthyOptStr, hp]
    | false =>
      cases hex : fs.existsSync p with
      | true => simp [resolveConfigPath, truthyOptStr, hp, hex]
      | false =>
        simp [resolveConfigPath, truthyOptStr, hp, hex]
        exact eq_comm

/-- C7: config-file resolution raises an error exactly when a path was
involved and is bad: an explicitly specified path that does not exist
fails fast with the config-file-not-found error; a resolved file whose
content is unreadable JSON fails with the parse error; no explicit path
and no existing default path is not an error and the base config is
returned unchanged; and these are the only error cases. -/
theorem claim_c7 :
    (∀ (fs : FileSystem) (jsonParse : String → Option JVal) (base : JVal)
      (p : String) (dps : Option (List String)),
      p.isEmpty = false → fs.existsSync p = false →
      resolveConfigFromFile fs jsonParse base (some p) dps =
        .error .configFileNotFound) ∧
    (∀ (fs : FileSystem) (jsonParse : String → Option JVal) (base : JVal)
      (cp : Option String) (dps : Option (List String)) (rp content : String),
      resolveConfigPath fs cp dps = .ok (some rp) →
      fs.readFile rp = .ok content → jsonParse content = none →
      resolveConfigFromFile fs jsonParse base cp dps =
        .error .configNotCorrectJson) ∧
    (∀ (fs : FileSystem) (jsonParse : String → Option JVal) (base : JVal)
      (dps : Option (List String)),
      (∀ pl, dps = some pl → ∀ q ∈ pl, fs.existsSync q = false) →
      resolveConfigFromFile fs jsonParse base none dps = .ok base) ∧
    (∀ (fs : FileSystem) (jsonParse : String → Option JVal) (base : JVal)
      (cp : Option String) (dps : Option (List String)) (e : JsError),
      resolveConfigFromFile fs jsonParse base cp dps = .error e →
      (e = .configFileNotFound ∧ ∃ p, cp = some p ∧ p.isEmpty = false ∧
        fs.existsSync p = false) ∨
      (e = .configNotCorrectJson ∧ ∃ rp c,
        resolveConfigPath fs cp dps = .ok (some rp) ∧
        fs.readFile rp = .ok c ∧ jsonParse c = none)) := by
  refine ⟨?_, ?_, ?_, ?_⟩
  · intro fs jsonParse base p dps hp hex
    simp [resolveConfigFromFile, resolveConfigPath, truthyOptStr, hp, hex,
      Bind.bind, Except.bind]
  · intro fs jsonParse base cp dps rp content hrp hread hparse
    simp [resolveConfigFromFile, hrp, getConfig, hread, hparse,
      Bind.bind, Except.bind]
  · intro fs jsonParse base dps hall
    have hfind : findExistingDefaultPath fs dps = none := by
      cases dps with
      | none => rfl
      | some paths =>
        simp only [findExistingDefaultPath, List.find?_eq_none]
        intro q hq
        simp [hall paths rfl q hq]
    simp [resolveConfigFromFile, resolveConfigPath, truthyOptStr, hfind,
      Bind.bind, Except.bind, pure, Except.pure]
  · intro fs jsonParse base cp dps e h
    cases hrp : resolveConfigPath fs cp dps with
    | error e2 =>
      left
      simp only [resolveConfigFromFile, hrp, Bind.bind, Except.bind] at h
      injection h with h
      cases h
      exact (resolveConfigPath_error_iff fs cp dps _).mp hrp
    | ok orp =>
      cases orp with
      | none =>
        exfalso
        simp [resolveConfigFromFile, hrp, Bind.bind, Except.bind,
          pure, Except.pure] at h
      | some rp =>
        cases hread : fs.readFile rp with
        | error code =>
          exfalso
          simp [resolveConfigFromFile, hrp, getConfig, hread,
            Bind.bind, Except.bind, pure, Except.pure] at h
        | ok content =>
          cases hparse : jsonParse content with
          | some v =>
            exfalso
            simp [resolveConfigFromFile, hrp, getConfig, hread, hparse,
              Bind.bind, Except.bind, pure, Except.pure] at h
          | none =>
            right
            simp only [resolveConfigFromFile, hrp, getConfig, hread, hparse,
              Bind.bind, Except.bind] at h
            injection h with h
            subst h
            exact ⟨rfl, rp, content, rfl, hread, hparse⟩

/-- Witness for C7: an explicit missing path errors with not-found; an
existing file holding unparsable content errors with the parse error;
no path and no existing default file returns the base config. -/
theorem claim_c7_witness :
    resolveConfigFromFile ⟨fun _ => false, fun _ => .error "ENOENT"⟩ (fun _ => none)
      (.vObj []) (some "conf.json") none = .error .configFileNotFound ∧
    resolveConfigFromFile ⟨fun _ => true, fun _ => .ok "nope"⟩ (fun _ => none)
      (.vObj []) (some "conf.json") none = .error .configNotCorrectJson ∧
    resolveConfigFromFile ⟨fun _ => false, fun _ => .error "ENOENT"⟩ (fun _ => none)
      (.vObj [("a", .vNum 1)]) none (some ["datadog-ci.json"]) =
      .ok (.vObj [("a", .vNum 1)]) := by
  refine ⟨claim_c7.1 _ _ _ "conf.json" none rfl rfl,
    claim_c7.2.1 _ _ _ (some "conf.json") none "conf.json" "nope" rfl rfl rfl,
    claim_c7.2.2.1 _ _ _ (some ["datadog-ci.json"]) ?_⟩
  intro pl hpl q hq
  rfl

/-- C9: a config read that fails with any error other than a JSON
syntax error makes getConfig return undefined instead of raising; only
a parse failure on successfully read content makes it throw. -/
theorem claim_c9 (fs : FileSystem) (jsonParse : String → Option JVal) (p : String) :
    (∀ code, fs.readFile p = .error code → getConfig fs jsonParse p = .ok none) ∧
    (∀ e, getConfig fs jsonParse p = .error e →
      e = .configNotCorrectJson ∧ ∃ c, fs.readFile p = .ok c ∧ jsonParse c = none) := by
  constructor
  · intro code h
    simp [getConfig, h]
  · intro e h
    cases hread : fs.readFile p with
    | error code => simp [getConfig, hread] at h
    | ok c =>
      cases hparse : jsonParse c with
      | some v => simp [getConfig, hread, hparse] at h
      | none =>
        simp only [getConfig, hread, hparse] at h
        injection h with h
        subst h
        exact ⟨rfl, c, rfl, hparse⟩

/-- Witness for C9: a file whose existence check passes but whose read
fails with a permission error yields undefined without raising. -/
theorem claim_c9_witness :
    getConfig ⟨fun _ => true, fun _ => .error "EACCES"⟩ (fun _ => none)
      "datadog-ci.json" = .ok none :=
  (claim_c9 ⟨fun _ => true, fun _ => .error "EACCES"⟩ (fun _ => none)
    "datadog-ci.json").1 "EACCES" rfl

theorem fieldOf_pick_foldl (base : Fields) (ks : List String) (acc : Fields)
    (k : String) :
    fieldOf (ks.foldl (fun a k2 => setKey a k2 (getField base k2)) acc) k =
      if k ∈ ks then some (getField base k) else fieldOf acc k := by
  induction ks generalizing acc with
  | nil => simp
  | cons k0 rest ih =>
    rw [List.foldl_cons, ih]
    by_cases hmem : k ∈ rest
    · simp [hmem]
    · by_cases hk : k = k0
      · subst hk
        simp [hmem, fieldOf_setKey_self]
      · have hnot : ¬(k ∈ k0 :: rest) := by simp [hk, hmem]
        simp [hmem, hnot, fieldOf_setKey_ne _ _ _ _ (fun hh => hk hh.symm)]

/-- C10: pick keeps exactly the requested keys whose value in the base
object is truthy, with the value copied from the base object; a
requested key whose value is falsy is omitted as if it were absent. -/
theorem claim_c10 (base : Fields) (keys : List String) (k : String) :
    fieldOf (pick base keys) k =
      if k ∈ keys ∧ truthy (getField base k) = true then some (getField base k)
      else none := by
  simp only [pick]
  rw [fieldOf_pick_foldl]
  by_cases hc : k ∈ keys ∧ truthy (getField base k) = true
  · rw [if_pos (List.mem_filter.mpr ⟨hc.1, hc.2⟩), if_pos hc]
  · rw [if_neg (fun hm => hc (List.mem_filter.mp hm)), if_neg hc]
    rfl

/-- C8 counterexample: the claim states the number coercer returns the
parsed number whenever the input is a decimal numeral, but the present
decimal numeral 1.5 parses to three halves and parseOptionalInteger
throws the not-an-integer error instead of returning it. -/
theorem claim_c8_counterexample :
    jsParseFloat "1.5" = some ((3 : Rat) / 2) ∧
    parseOptionalInteger (some "1.5") = .error .notAnInteger := by
  have h : jsParseFloat "1.5" = some ((3 : Rat) / 2) := by
    simp [jsParseFloat, digitsToNat, digitVal, List.dropWhile, List.takeWhile]
    norm_num
  have hint : numberIsInteger (some ((3 : Rat) / 2)) = false := by
    norm_num [numberIsInteger]
  have he : "1.5".isEmpty = false := rfl
  refine ⟨h, ?_⟩
  simp [parseOptionalInteger, truthyOptStr, he, h, hint]

/-- C8 amended: the number coercer returns undefined when the input is
absent (never throwing) or an empty string; it returns the parsed
number when the parse yields an integer; it throws the parse error when
the parse yields NaN (non-numeric input) or a non-integer number. -/
theorem claim_c8_amended :
    (parseOptionalInteger none = .ok none) ∧
    (parseOptionalInteger (some "") = .ok none) ∧
    (∀ (s : String) (q : Rat), s.isEmpty = false → jsParseFloat s = some q →
      q.den = 1 → parseOptionalInteger (some s) = .ok (some q)) ∧
    (∀ s : String, s.isEmpty = false → jsParseFloat s = none →
      parseOptionalInteger (some s) = .error .notAnInteger) ∧
    (∀ (s : String) (q : Rat), s.isEmpty = false → jsParseFloat s = some q →
      q.den ≠ 1 → parseOptionalInteger (some s) = .error .notAnInteger) := by
  refine ⟨rfl, rfl, ?_, ?_, ?_⟩
  · intro s q hs hq hden
    simp [parseOptionalInteger, truthyOptStr, hs, hq, numberIsInteger, hden]
  · intro s hs hq
    simp [parseOptionalInteger, truthyOptStr, hs, hq, numberIsInteger]
  · intro s q hs hq hden
    have hb : (q.den == 1) = false := by simp [hden]
    simp [parseOptionalInteger, truthyOptStr, hs, hq, numberIsInteger, hb]

/-- Witness for C8 amended: the integer numeral 7 is returned parsed,
the non-numeric string abc throws, and the fractional numeral 1.5
throws. -/
theorem claim_c8_amended_witness :
    parseOptionalInteger (some "7") = .ok (some 7) ∧
    parseOptionalInteger (some "abc") = .error .notAnInteger ∧
    parseOptionalInteger (some "1.5") = .error .notAnInteger := by
  refine ⟨claim_c8_amended.2.2.1 "7" 7 rfl ?_ ?_,
    claim_c8_amended.2.2.2.1 "abc" rfl ?_,
    claim_c8_amended.2.2.2.2 "1.5" ((3 : Rat) / 2) rfl ?_ ?_⟩
  · simp [jsParseFloat, digitsToNat, digitVal, List.dropWhile, List.takeWhile]
  · norm_num
  · simp [jsParseFloat, digitsToNat, digitVal, List.dropWhile, List.takeWhile]
  · simp [jsParseFloat, digitsToNat, digitVal, List.dropWhile, List.takeWhile]
    norm_num
  · norm_num

/-- Witness for C4 at a concrete global Override Set. -/
theorem claim_c4_witness :
    resolveTestOverrides [("locations", .vArr [.vStr "aws:us-east-2"]),
      ("retry", .vObj [("count", .vNum 2)])] [] =
      [("locations", .vArr [.vStr "aws:us-east-2"]),
        ("retry", .vObj [("count", .vNum 2)])] :=
  claim_c4 _

/-- Witness for C5: one critical lookup failure with failOnCriticalErrors
enabled exits with failure. -/
theorem claim_c5_witness :
    getExitCode ⟨true, false, false⟩
      (runTally [TestLookup.failed (some 502)] []) = EXIT_FAILURE :=
  (claim_c5 ⟨true, false, false⟩ [TestLookup.failed (some 502)] []).1.mpr
    (Or.inl ⟨rfl, TestLookup.failed (some 502), by simp, rfl⟩)

/-- Witness for C10: a requested key holding the empty string, a falsy
value, is omitted from the picked object. -/
theorem claim_c10_witness :
    fieldOf (pick [("apiKey", .vStr "k"), ("appKey", .vStr "")]
      ["apiKey", "appKey"]) "appKey" = none := by
  rw [claim_c10]
  simp [getField, fieldOf, truthy, String.isEmpty_iff]
